import Mathlib

/-!
Verification development for the euets-scraper repository.

The Python sources under `src/euets_scraper/` are shallowly embedded here:
pure string manipulation is translated to functions on `String` / `List Char`,
the zip archive (decoded by the external `zipfile` collaborator) is a list of
entries, the local/remote filesystem written by `extract_files_from_bytes` is
an explicit state record, HTML documents (decoded by the external
BeautifulSoup collaborator) are a tree type `Node`, and Python exceptions are
`Except` values.  Network transport (httpx), the zip codec, the HTML parser
and pydantic URL validation are external collaborators: the embedding starts
from their decoded outputs, exactly as the functions under test do.
-/

namespace Euets

/-! ## Python string primitives (ASCII fidelity, structural recursion) -/

/-- Characters stripped by Python `str.strip()` with no argument. -/
def isPySpace (c : Char) : Bool :=
  c == ' ' || c == '\t' || c == '\n' || c == '\r' || c == '\x0b' || c == '\x0c'

/-- Python `str.strip()`. -/
def pyStrip (s : String) : String :=
  ⟨((s.data.dropWhile isPySpace).reverse.dropWhile isPySpace).reverse⟩

/-- Python `str.lower()` (ASCII range; the scraped labels are ASCII). -/
def pyLower (s : String) : String :=
  ⟨s.data.map Char.toLower⟩

/-- Substring test on character lists, used for the Python `in` operator. -/
def lcHasSub (s sub : List Char) : Bool :=
  if sub.isPrefixOf s then true
  else
    match s with
    | [] => false
    | _ :: t => lcHasSub t sub

/-- Python `sub in s` for strings. -/
def hasSubstr (s sub : String) : Bool :=
  lcHasSub s.data sub.data

/-- Python `s.startswith(p)`. -/
def pyStartsWith (s p : String) : Bool :=
  p.data.isPrefixOf s.data

/-- Python `s.endswith(p)`. -/
def pyEndsWith (s p : String) : Bool :=
  p.data.reverse.isPrefixOf s.data.reverse

/-- Python `s.rsplit(c, 1)[-1]` for a one-character separator `c`: the text
after the last occurrence of `c`, or all of `s` when `c` does not occur. -/
def afterLastChar (c : Char) (s : String) : String :=
  ⟨(s.data.reverse.takeWhile (fun x => x != c)).reverse⟩

/-- Python `s.rstrip(c)` for a one-character argument. -/
def rstripChar (c : Char) (s : String) : String :=
  ⟨(s.data.reverse.dropWhile (fun x => x == c)).reverse⟩

/-- Python `s.split(c)` for a one-character separator: all parts, empty parts
kept, `[""]` for the empty string. -/
def lcSplitOnChar (c : Char) : List Char → List (List Char)
  | [] => [[]]
  | x :: xs =>
    let r := lcSplitOnChar c xs
    if x == c then [] :: r
    else
      match r with
      | h :: t => (x :: h) :: t
      | [] => [[x]]

/-- Python `s.split(c)` on strings. -/
def pySplitChar (c : Char) (s : String) : List String :=
  (lcSplitOnChar c s.data).map (fun l => ⟨l⟩)

/-- Value of a nonempty all-digit character list, otherwise `none`. -/
def lcDigits? (l : List Char) : Option Nat :=
  if l.isEmpty then none
  else if l.all Char.isDigit then
    some (l.foldl (fun a c => a * 10 + (c.toNat - 48)) 0)
  else none

/-- Python `int(s)` on decimal strings: surrounding whitespace stripped, one
optional sign, at least one digit; anything else raises, modeled as `none`. -/
def pyInt (s : String) : Option Int :=
  match (pyStrip s).data with
  | '-' :: rest => (lcDigits? rest).map (fun n => -(n : Int))
  | '+' :: rest => (lcDigits? rest).map (fun n => (n : Int))
  | t => (lcDigits? t).map (fun n => (n : Int))

/-! ## Shell-glob matching (Python `fnmatch.fnmatch` on POSIX)

Patterns built from literal characters, `*` and `?`; the `[...]` character
classes of `fnmatch` are not modeled because no claim and no repository test
uses them.  `*` matches any run of characters, `?` exactly one. -/

/-- All suffixes of a list, longest first, ending with `[]`. -/
def lcSuffixes : List Char → List (List Char)
  | [] => [[]]
  | c :: cs => (c :: cs) :: lcSuffixes cs

/-- Glob matching on character lists, structurally recursive in the pattern. -/
def globMatch : List Char → List Char → Bool
  | [], s => s.isEmpty
  | '*' :: ps, s => (lcSuffixes s).any (fun t => globMatch ps t)
  | '?' :: ps, s =>
    match s with
    | [] => false
    | _ :: cs => globMatch ps cs
  | p :: ps, s =>
    match s with
    | [] => false
    | c :: cs => p == c && globMatch ps cs

/-- Python `fnmatch.fnmatch(name, pat)` (POSIX case-sensitive semantics). -/
def fnmatch (name pat : String) : Bool :=
  globMatch pat.data name.data

/-! ## Archive content accessor (`src/euets_scraper/archive.py`)

The `zipfile` codec is an external collaborator; a decoded archive is the
list of its entries in central-directory order.  `content` is the entry's
decompressed byte string, so the header field `file_size` (the uncompressed
size) is `content.length`, and `ZipInfo.is_dir()` is the zipfile definition:
the entry name ends with a slash. -/

/-- One entry of a decoded zip archive. -/
structure ZipEntry where
  filename : String
  content : List Nat
  deriving Repr, DecidableEq

/-- Embeds `ZipInfo.is_dir()`: the filename ends with `/`. -/
def ZipEntry.isDir (e : ZipEntry) : Bool :=
  pyEndsWith e.filename "/"

/-- A decoded zip archive: its entries, in order. -/
abbrev ZipArchive := List ZipEntry

/-- Embeds `ZipFile.read(name)`: CPython's `NameToInfo` map is built front to back,
so a later entry with the same name shadows an earlier one and `read` returns
the content of the last entry carrying `name`. -/
def zipRead (z : ZipArchive) (name : String) : List Nat :=
  match (z.filter (fun e => e.filename == name)).getLast? with
  | some e => e.content
  | none => []

/-- Record `ArchiveFile` of `archive.py`. -/
structure ArchiveFile where
  name : String
  size : Nat
  file_type : String
  deriving Repr, DecidableEq

/-- Embeds `_is_cloud_path` of `archive.py`. -/
def is_cloud_path (path : String) : Bool :=
  hasSubstr path "://" && !(pyStartsWith path "file://")

/-- Embeds `_get_file_type` of `archive.py`: extension by `rsplit` on the whole
argument, lowercased, blanked when it would equal the entire lowercased
argument. -/
def get_file_type (filename : String) : String :=
  let ext := if filename.data.contains '.' then pyLower (afterLastChar '.' filename) else ""
  if ext != pyLower filename then ext else ""

/-- Embeds `list_files_from_bytes` of `archive.py`, applied to the decoded archive. -/
def list_files_from_bytes (z : ZipArchive) : List ArchiveFile :=
  (z.filter (fun info => !info.isDir)).map (fun info =>
    { name := afterLastChar '/' info.filename
      size := info.content.length
      file_type := get_file_type info.filename })

/-! ## Filesystem state for `extract_files_from_bytes`

The local filesystem / remote object store written through `_open_for_write`
is modeled as a record: written files (later writes shadow earlier ones) and
the set of directories made by `Path.mkdir(parents=True, exist_ok=True)`. -/

/-- Filesystem state: written files (newest first) and existing directories. -/
structure FS where
  files : List (String × List Nat)
  dirs : List String
  deriving Repr, DecidableEq

/-- Write a file: a later write at the same path shadows an earlier one. -/
def FS.write (fs : FS) (path : String) (c : List Nat) : FS :=
  { fs with files := (path, c) :: fs.files }

/-- Content stored at a path, `none` when nothing was ever written there. -/
def FS.read (fs : FS) (path : String) : Option (List Nat) :=
  (fs.files.find? (fun kv => kv.1 == path)).map (fun kv => kv.2)

/-- Embeds `Path(d).mkdir(parents=True, exist_ok=True)`: records the directory. -/
def FS.mkdirP (fs : FS) (d : String) : FS :=
  if fs.dirs.contains d then fs else { fs with dirs := d :: fs.dirs }

/-- Loop body of `extract_files_from_bytes`: walk the entries, skip
directories, match the basename against the pattern, make the local output
directory, write the entry's bytes (read back by name from the archive), and
collect the written paths in entry order.  `z` is the whole archive (for
`ZipFile.read`), `es` the remaining entries. -/
def extractLoop (z : ZipArchive) (pattern out : String) : List ZipEntry → FS → List String × FS
  | [], fs => ([], fs)
  | info :: rest, fs =>
    if info.isDir then extractLoop z pattern out rest fs
    else
      let basename := afterLastChar '/' info.filename
      if !fnmatch basename pattern then extractLoop z pattern out rest fs
      else
        let fs1 := if is_cloud_path out then fs else fs.mkdirP out
        let out_path := out ++ "/" ++ basename
        let fs2 := fs1.write out_path (zipRead z info.filename)
        let r := extractLoop z pattern out rest fs2
        (out_path :: r.1, r.2)

/-- Embeds `extract_files_from_bytes` of `archive.py`: `output_str` is the
destination with trailing slashes stripped; returns the written paths and the
final filesystem state. -/
def extract_files_from_bytes (z : ZipArchive) (pattern : String)
    (output_dir : String) (fs : FS) : List String × FS :=
  extractLoop z pattern (rstripChar '/' output_dir) z fs

/-- The extraction loop's selection test: a non-directory entry whose
basename matches the pattern. -/
def matchPred (pattern : String) (e : ZipEntry) : Bool :=
  !e.isDir && fnmatch (afterLastChar '/' e.filename) pattern

/-- Non-directory entries of the archive whose basename matches the pattern:
exactly the entries the extraction loop writes. -/
def matchedEntries (z : ZipArchive) (pattern : String) : List ZipEntry :=
  z.filter (matchPred pattern)

/-! ## HTML document model (`src/euets_scraper/scraper.py`)

BeautifulSoup (the external HTML parsing collaborator) delivers a tree of
tags and navigable strings; an attribute such as `id` or `href` is a string
when present.  `class` membership is tested against the whitespace-split
class attribute, as soupsieve does for a `.name` selector. -/

/-- A parsed HTML node: an element with tag name, attributes and children,
or a text node (NavigableString). -/
inductive Node where
  | elem (tag : String) (attrs : List (String × String)) (children : List Node)
  | text (s : String)
  deriving Repr

/-- Embeds `Tag.get(name)`: first attribute with that name, if any. -/
def attrGet (n : Node) (key : String) : Option String :=
  match n with
  | .elem _ attrs _ => (attrs.find? (fun kv => kv.1 == key)).map (fun kv => kv.2)
  | .text _ => none

/-- Class list of an element: the `class` attribute split on spaces. -/
def classesOf (n : Node) : List String :=
  match attrGet n "class" with
  | some v => pySplitChar ' ' v
  | none => []

/-- Whether an element carries the given class (a `.cls` selector test). -/
def hasClass (n : Node) (cls : String) : Bool :=
  (classesOf n).contains cls

/-- Tag name of an element node. -/
def tagOf : Node → Option String
  | .elem t _ _ => some t
  | .text _ => none

/-- Children of a node. -/
def childrenOf : Node → List Node
  | .elem _ _ ch => ch
  | .text _ => []

mutual
/-- Preorder listing of a subtree, the root first: BeautifulSoup's
`descendants` order for the root's subtree. -/
def preorder : Node → List Node
  | .text s => [.text s]
  | .elem t a ch => .elem t a ch :: preorderList ch
/-- Preorder listing of a forest. -/
def preorderList : List Node → List Node
  | [] => []
  | n :: ns => preorder n ++ preorderList ns
end

/-- Strict descendants of a node, in document (preorder) order: the search
space of `Tag.select`, `Tag.select_one` and `Tag.find_all`. -/
def descendantsOf (n : Node) : List Node :=
  preorderList (childrenOf n)

/-- Embeds `parent.select_one(".cls")`: first descendant carrying the class. -/
def selectOneClass (parent : Node) (cls : String) : Option Node :=
  ((descendantsOf parent).filter (fun n => hasClass n cls)).head?

mutual
/-- Worker for `soup.select(".datasets-tab .accordion.ui")`: collect, in document
order, the elements with classes `accordion` and `ui` having a strict
ancestor with class `datasets-tab`; `under` records whether such an ancestor
encloses the current node. -/
def accordionsUnder (under : Bool) : Node → List Node
  | .text _ => []
  | .elem t a ch =>
    let self := Node.elem t a ch
    let here := if under && hasClass self "accordion" && hasClass self "ui" then [self] else []
    here ++ accordionsUnderList (under || hasClass self "datasets-tab") ch
/-- Runs `accordionsUnder` over a forest. -/
def accordionsUnderList (under : Bool) : List Node → List Node
  | [] => []
  | n :: ns => accordionsUnder under n ++ accordionsUnderList under ns
end

/-- Embeds `soup.select(".datasets-tab .accordion.ui")` on the whole document. -/
def selectAccordions (doc : Node) : List Node :=
  accordionsUnder false doc

mutual
/-- Text contents of the descendant NavigableStrings of a node, in document
order (the strings behind `Tag.strings` / `Tag.get_text`). -/
def textsOf : Node → List String
  | .text s => [s]
  | .elem _ _ ch => textsOfList ch
/-- Runs `textsOf` over a forest. -/
def textsOfList : List Node → List String
  | [] => []
  | n :: ns => textsOf n ++ textsOfList ns
end

/-- Embeds `Tag.get_text()`: concatenation of all descendant strings. -/
def getText (n : Node) : String :=
  String.join (textsOf n)

/-- Embeds `Tag.get_text(strip=True)`: each descendant string stripped, joined. -/
def getTextStrip (n : Node) : String :=
  String.join ((textsOf n).map pyStrip)

/-- Embeds `Tag.stripped_strings`: descendant strings stripped, empties dropped. -/
def strippedStrings (n : Node) : List String :=
  ((textsOf n).map pyStrip).filter (fun s => !s.isEmpty)

/-- The `.string` property: a text node is its own string; an element with
exactly one child defers to that child; anything else has no string. -/
def nodeString : Node → Option String
  | .text s => some s
  | .elem _ _ [c] => nodeString c
  | .elem _ _ _ => none

mutual
/-- Embeds `str(node)`: a NavigableString prints as its text, a tag as its markup. -/
def nodeStr : Node → String
  | .text s => s
  | .elem t a ch =>
    "<" ++ t ++ String.join (a.map (fun kv => " " ++ kv.1 ++ "=\"" ++ kv.2 ++ "\"")) ++ ">"
      ++ nodeStrList ch ++ "</" ++ t ++ ">"
/-- Runs `str` over a forest. -/
def nodeStrList : List Node → String
  | [] => ""
  | n :: ns => nodeStr n ++ nodeStrList ns
end

/-- Python truthiness of a node: a NavigableString is truthy when nonempty
(it is a `str`), a Tag is truthy. -/
def nodeTruthy : Node → Bool
  | .text s => !s.isEmpty
  | .elem _ _ _ => true

mutual
/-- Embeds `container.find_all("strong")` paired with each hit's `next_sibling`:
document-order strong descendants with the node that follows each in its
parent's child list, if any. -/
def strongPairs : Node → List (Node × Option Node)
  | .text _ => []
  | .elem _ _ ch => strongPairsList ch
/-- Worker over a child list: a strong child contributes itself and its next
sibling, then its own subtree is searched, then the remaining siblings. -/
def strongPairsList : List Node → List (Node × Option Node)
  | [] => []
  | c :: rest =>
    (if tagOf c == some "strong" then [(c, rest.head?)] else [])
      ++ strongPairs c ++ strongPairsList rest
end

mutual
/-- Embeds `content.select("a")`: descendant anchor elements in document order. -/
def anchorsOf : Node → List Node
  | .text _ => []
  | .elem _ _ ch => anchorsOfList ch
/-- Runs `anchorsOf` over a forest. -/
def anchorsOfList : List Node → List Node
  | [] => []
  | n :: ns =>
    (if tagOf n == some "a" then [n] else []) ++ anchorsOf n ++ anchorsOfList ns
end

/-! ## Dataset record parser (`scraper.py`) -/

/-- A Python exception as far as this code observes them: `ValueError` with
its message (pydantic validation errors are `ValueError` subclasses), or the
`StopIteration` escaping `next()` on an exhausted generator. -/
inductive PyExc where
  | valueError (msg : String)
  | stopIteration
  deriving Repr, DecidableEq

/-- Record `Link` of `scraper.py` (the `AnyUrl` wrapper is kept as the string). -/
structure Link where
  label : String
  url : String
  deriving Repr, DecidableEq

/-- A calendar date as produced by `_parse_date` (day-precision). -/
structure PyDate where
  year : Int
  month : Nat
  day : Nat
  deriving Repr, DecidableEq

/-- Record `Dataset` of `scraper.py` (value fields only; the two private cache
fields live in `DatasetState` below, as they mutate). -/
structure Dataset where
  dataset_id : String
  title : String
  format : String
  superseded : Bool
  published : Option PyDate
  temporal_coverage : Int × Int
  factsheet : String
  links : List Link
  deriving Repr, DecidableEq

/-- Record `ParseError` of `scraper.py`. -/
structure ParseError where
  dataset_id : Option String
  message : String
  deriving Repr, DecidableEq

/-- Record `ETSResult` of `scraper.py`. -/
structure ETSResult where
  datasets : List Dataset
  errors : List ParseError
  deriving Repr, DecidableEq

/-- Month abbreviations accepted by `strptime`'s `%b` in the C locale. -/
def monthAbbrevs : List String :=
  ["Jan", "Feb", "Mar", "Apr", "May", "Jun", "Jul", "Aug", "Sep", "Oct", "Nov", "Dec"]

/-- Embeds `_parse_date` of `scraper.py`: `strptime(text.strip(), "%d %b %Y")`,
`None` on failure.  Modeled on canonically single-spaced day/month/year
inputs, which is what the datahub page carries. -/
def parse_date (text : String) : Option PyDate :=
  match pySplitChar ' ' (pyStrip text) with
  | [d, m, y] =>
    match lcDigits? d.data, (monthAbbrevs.indexOf m), lcDigits? y.data with
    | some dv, mi, some yv =>
      if mi < 12 && 1 ≤ dv && dv ≤ 31 then some ⟨(yv : Int), mi + 1, dv⟩ else none
    | _, _, _ => none
  | _ => none

/-- Embeds `_parse_years` of `scraper.py`: split on a literal hyphen into exactly
two `int()` tokens; unpacking or conversion failure yields `None`. -/
def parse_years (text : String) : Option (Int × Int) :=
  match pySplitChar '-' text with
  | [a, b] =>
    match pyInt a, pyInt b with
    | some x, some y => some (x, y)
    | _, _ => none
  | _ => none

/-- Embeds `_extract_field` of `scraper.py`: walk the strong descendants; on the
first one whose `.string` is truthy and contains the label, with a truthy
next sibling, return the parser applied to `str(sibling).strip()` — even
when the parser yields `None`. -/
def extract_field {α : Type} (container : Node) (label : String)
    (parseFn : String → Option α) : Option α :=
  go (strongPairs container)
where
  /-- Loop over the `(strong, next_sibling)` pairs. -/
  go : List (Node × Option Node) → Option α
  | [] => none
  | (strg, sib) :: rest =>
    match nodeString strg with
    | some s =>
      if !s.isEmpty && hasSubstr s label then
        match sib with
        | some sb => if nodeTruthy sb then parseFn (pyStrip (nodeStr sb)) else go rest
        | none => go rest
      else go rest
    | none => go rest

/-- Embeds `_select` of `scraper.py` for the class selectors the parser uses:
`select_one` on the class, `ValueError` naming the selector when absent. -/
def selectReq (parent : Node) (cls selector : String) : Except PyExc Node :=
  match selectOneClass parent cls with
  | some element => .ok element
  | none => .error (.valueError ("Missing required element: " ++ selector))

/-- Ordered-dict insertion for `all_links[label] = href`: an existing key
keeps its position and takes the new value, a new key goes to the end. -/
def dictInsert (d : List (String × String)) (k v : String) : List (String × String) :=
  if (d.find? (fun kv => kv.1 == k)).isSome then
    d.map (fun kv => if kv.1 == k then (k, v) else kv)
  else d ++ [(k, v)]

/-- Lookup in the ordered dict. -/
def dictFind (d : List (String × String)) (k : String) : Option String :=
  (d.find? (fun kv => kv.1 == k)).map (fun kv => kv.2)

/-- Embeds `dict.pop(k)`'s residue: the dict without the key, order preserved. -/
def dictRemove (d : List (String × String)) (k : String) : List (String × String) :=
  d.filter (fun kv => kv.1 != k)

/-- The `all_links` loop of `_parse_accordion`: every descendant anchor with
a string `href` recorded under its stripped visible text, last write wins. -/
def collectLinks (content : Node) : List (String × String) :=
  (anchorsOf content).foldl
    (fun d a =>
      match attrGet a "href" with
      | some href => dictInsert d (getTextStrip a) href
      | none => d)
    []

/-- Embeds `_parse_accordion` of `scraper.py`.  Hard failures are `ValueError`s;
`next(title_span.stripped_strings)` on a text-free title raises
`StopIteration`, which no caller converts. -/
def parse_accordion (accordion : Node) : Except PyExc Dataset :=
  let dataset_id := (attrGet accordion "id").getD ""
  match selectReq accordion "dataset-title" ".dataset-title" with
  | .error e => .error e
  | .ok title_span =>
    match selectReq accordion "content" ".content" with
    | .error e => .error e
    | .ok content =>
      match selectReq title_span "formats" ".formats" with
      | .error e => .error e
      | .ok formats_span =>
        match selectReq formats_span "dh-label" ".dh-label" with
        | .error e => .error e
        | .ok format_label =>
          match (strippedStrings title_span).head? with
          | none => .error PyExc.stopIteration
          | some full_title =>
            let format_text := getTextStrip format_label
            let superseded := hasSubstr (getText formats_span) "Superseded"
            let published := extract_field content "Published:" parse_date
            match extract_field content "Temporal coverage:" parse_years with
            | none => .error (PyExc.valueError "Missing required field: temporal coverage")
            | some coverage =>
              let all_links := collectLinks content
              match dictFind all_links "Metadata Factsheet" with
              | none => .error (PyExc.valueError "Missing required field: Metadata Factsheet")
              | some factsheet =>
                let links := (dictRemove all_links "Metadata Factsheet").map
                  (fun kv => Link.mk kv.1 kv.2)
                Except.ok
                  { dataset_id, title := full_title, format := format_text, superseded,
                    published, temporal_coverage := coverage, factsheet, links }

/-- Aggregation loop of `_parse_accordions`: skip fragments without a string
`id`, turn a `ValueError` into a `ParseError` carrying that id, let any
other exception propagate and abort. -/
def parseAccList : List Node → Except PyExc (List Dataset × List ParseError)
  | [] => .ok ([], [])
  | acc :: rest =>
    match attrGet acc "id" with
    | none => parseAccList rest
    | some accId =>
      match parse_accordion acc with
      | .ok d =>
        match parseAccList rest with
        | .error e => .error e
        | .ok r => .ok (d :: r.1, r.2)
      | .error (.valueError msg) =>
        match parseAccList rest with
        | .error e => .error e
        | .ok r => .ok (r.1, ⟨some accId, msg⟩ :: r.2)
      | .error .stopIteration => .error .stopIteration

/-- Embeds `_parse_accordions` of `scraper.py`. -/
def parse_accordions (soup : Node) : Except PyExc ETSResult :=
  (parseAccList (selectAccordions soup)).map (fun r => ⟨r.1, r.2⟩)

/-- Embeds `fetch_datasets_simple` of `scraper.py`, given the parsed document of
the fetched page (HTTP transport and HTML decoding are collaborators). -/
def fetch_datasets_simple (doc : Node) : Except PyExc ETSResult :=
  parse_accordions doc

/-! ## Download-URL resolver (`scraper.py`) -/

mutual
/-- Embeds `soup.find_all("span")` paired with each span's ancestor chain, nearest
ancestor first (what `find_parent` searches), in document order. -/
def spansWithAnc (anc : List Node) : Node → List (Node × List Node)
  | .text _ => []
  | .elem t a ch =>
    let self := Node.elem t a ch
    (if t == "span" then [(self, anc)] else []) ++ spansWithAncList (self :: anc) ch
/-- Runs `spansWithAnc` over a forest. -/
def spansWithAncList (anc : List Node) : List Node → List (Node × List Node)
  | [] => []
  | n :: ns => spansWithAnc anc n ++ spansWithAncList anc ns
end

/-- Embeds `_resolve_download_url_from_html` of `scraper.py`: the first span whose
`.string` is exactly "Download all files", wrapped in an `a` ancestor whose
`href` is truthy (present and nonempty), yields that href; otherwise
`ValueError`. -/
def resolve_download_url_from_html (doc : Node) : Except PyExc String :=
  go (spansWithAnc [] doc)
where
  /-- Loop over the spans in document order. -/
  go : List (Node × List Node) → Except PyExc String
  | [] => .error (.valueError "Could not find 'Download all files' link on page")
  | (span, anc) :: rest =>
    if nodeString span == some "Download all files" then
      match anc.find? (fun n => tagOf n == some "a") with
      | some link =>
        match attrGet link "href" with
        | some href => if !href.isEmpty then .ok href else go rest
        | none => go rest
      | none => go rest
    else go rest

/-! ## Dataset facade: lazy URL/bytes cache (`scraper.py`)

`Dataset.url` and `Dataset._get_archive_bytes` mutate the two private cache
attributes; they are modeled as explicit state, with the network
collaborators `resolve_download_url` and `fetch_archive` passed in as
functions.  Each call also reports the arguments it passed to the
collaborator, so the number of resolutions/fetches is observable. -/

/-- The two private cache attributes of a `Dataset` instance. -/
structure DatasetState where
  cached_archive_url : Option String
  cached_archive_bytes : Option (List Nat)
  deriving Repr, DecidableEq

/-- A fresh instance: both caches unset. -/
def DatasetState.fresh : DatasetState := ⟨none, none⟩

/-- The `for link in self.links` loop of `Dataset.url`: every link labeled
"Direct download" is resolved and assigned to the cache in turn (there is no
`break`).  Returns the final cache value and the resolved page URLs in call
order. -/
def urlLoop (resolve : String → String) : List Link → Option String → Option String × List String
  | [], c => (c, [])
  | l :: rest, c =>
    if l.label == "Direct download" then
      let r := urlLoop resolve rest (some (resolve l.url))
      (r.1, l.url :: r.2)
    else urlLoop resolve rest c

/-- Embeds `Dataset.url`: when the cache is unset, run the resolution loop and
store its outcome; always return the cache.  Besides the Python return value
it yields the resolver-call list and the successor state. -/
def datasetUrl (resolve : String → String) (d : Dataset) (st : DatasetState) :
    (Option String × List String) × DatasetState :=
  match st.cached_archive_url with
  | some u => ((some u, []), st)
  | none =>
    let r := urlLoop resolve d.links none
    ((r.1, r.2), { st with cached_archive_url := r.1 })

/-- Embeds `Dataset._get_archive_bytes`: cached bytes are returned as is; otherwise
the URL is resolved via `Dataset.url` and, when it is `None` or empty
(Python `if not url`), `ValueError` is raised with the state as mutated so
far; else the archive is fetched once and cached.  The payload carries the
bytes, the resolver calls and the fetch calls. -/
def getArchiveBytes (resolve : String → String) (fetchArch : String → List Nat)
    (d : Dataset) (st : DatasetState) :
    Except (String × DatasetState) ((List Nat × List String × List String) × DatasetState) :=
  match st.cached_archive_bytes with
  | some b => .ok ((b, [], []), st)
  | none =>
    let r := datasetUrl resolve d st
    match r.1.1 with
    | none => .error ("No download URL available for this dataset", r.2)
    | some u =>
      if u.isEmpty then .error ("No download URL available for this dataset", r.2)
      else
        let b := fetchArch u
        .ok ((b, r.1.2, [u]), { r.2 with cached_archive_bytes := some b })

/-! ## Concrete document fixtures

Small documents, all producible by real markup, used by counterexamples and
witnesses below. -/

/-- A format/status span with its label. -/
def fixFormats : Node :=
  .elem "span" [("class", "formats")]
    [.elem "span" [("class", "dh-label")] [.text "ascii (.csv)"]]

/-- A well-formed dataset title region: title text plus format/status span. -/
def fixTitle : Node :=
  .elem "span" [("class", "dataset-title")] [.text "EU ETS data", fixFormats]

/-- The temporal-coverage field: a strong label and its text sibling. -/
def fixCovField : List Node :=
  [.elem "strong" [] [.text "Temporal coverage:"], .text " 2005-2024"]

/-- The published field. -/
def fixPubField : List Node :=
  [.elem "strong" [] [.text "Published:"], .text " 9 May 2019"]

/-- The mandatory factsheet link. -/
def fixFactLink : Node :=
  .elem "a" [("href", "https://host/factsheet")] [.text "Metadata Factsheet"]

/-- A direct-download link. -/
def fixDdLink : Node :=
  .elem "a" [("href", "https://host/dd")] [.text "Direct download"]

/-- A fully well-formed content region. -/
def fixContentFull : Node :=
  .elem "div" [("class", "content")] (fixPubField ++ fixCovField ++ [fixFactLink, fixDdLink])

/-- Content region missing only the temporal-coverage field. -/
def fixContentNoCov : Node :=
  .elem "div" [("class", "content")] (fixPubField ++ [fixFactLink, fixDdLink])

/-- Content region missing both the coverage field and the factsheet link. -/
def fixContentNoCovNoFact : Node :=
  .elem "div" [("class", "content")] (fixPubField ++ [fixDdLink])

/-- Content region with coverage but no factsheet link. -/
def fixContentCovNoFact : Node :=
  .elem "div" [("class", "content")] (fixPubField ++ fixCovField ++ [fixDdLink])

/-- A fully well-formed dataset fragment. -/
def fixAccValid : Node :=
  .elem "div" [("id", "d1"), ("class", "accordion ui")] [fixTitle, fixContentFull]

/-- A fragment whose title region contains no text at all: parsing it hits
`next()` on an empty `stripped_strings` generator. -/
def fixAccNoTitleText : Node :=
  .elem "div" [("id", "d2"), ("class", "accordion ui")]
    [.elem "span" [("class", "dataset-title")]
      [.elem "span" [("class", "formats")] [.elem "span" [("class", "dh-label")] []]],
     fixContentFull]

/-- A well-formed fragment missing only the coverage field. -/
def fixAccNoCov : Node :=
  .elem "div" [("id", "d3"), ("class", "accordion ui")] [fixTitle, fixContentNoCov]

/-- A well-formed fragment missing the coverage field and the factsheet. -/
def fixAccNoCovNoFact : Node :=
  .elem "div" [("id", "d4"), ("class", "accordion ui")] [fixTitle, fixContentNoCovNoFact]

/-- A well-formed fragment with coverage but no factsheet link. -/
def fixAccCovNoFact : Node :=
  .elem "div" [("id", "d5"), ("class", "accordion ui")] [fixTitle, fixContentCovNoFact]

/-- A well-formed fragment carrying no `id` attribute. -/
def fixAccNoId : Node :=
  .elem "div" [("class", "accordion ui")] [fixTitle, fixContentFull]

/-- Wrap fragments in the datasets tab of a page. -/
def fixDoc (frags : List Node) : Node :=
  .elem "html" [] [.elem "body" [] [.elem "div" [("class", "datasets-tab")] frags]]

/-- The dataset parsed from `fixAccValid`. -/
def fixDataset : Dataset :=
  { dataset_id := "d1", title := "EU ETS data", format := "ascii (.csv)",
    superseded := false, published := some ⟨2019, 5, 9⟩,
    temporal_coverage := (2005, 2024), factsheet := "https://host/factsheet",
    links := [⟨"Direct download", "https://host/dd"⟩] }

/-- A download page with a proper "Download all files" anchor. -/
def fixDownloadPage : Node :=
  .elem "html" []
    [.elem "body" []
      [.elem "a" [("href", "https://host/archive.zip")]
        [.elem "span" [] [.text "Download all files"]],
       .elem "span" [] [.text "other"]]]

/-- A download page whose labeled anchor has an empty `href`. -/
def fixDownloadPageEmptyHref : Node :=
  .elem "html" []
    [.elem "body" []
      [.elem "a" [("href", "")] [.elem "span" [] [.text "Download all files"]]]]

/-- The extension rule as the spec words it, applied to an arbitrary name:
lowercase characters after the last `.`, or the empty string if the name has
no `.` or the extension would equal the entire lowercased name. -/
def claimFileType (name : String) : String :=
  if name.data.contains '.' then
    let ext := pyLower (afterLastChar '.' name)
    if ext = pyLower name then "" else ext
  else ""

/-- The dataset fragments the aggregation loop actually processes: elements
selected by `.datasets-tab .accordion.ui` that carry a string `id`. -/
def fragsOf (doc : Node) : List Node :=
  (selectAccordions doc).filter (fun a => (attrGet a "id").isSome)

/-- The dataset a fragment parses to, when it parses. -/
def okOf (a : Node) : Option Dataset :=
  match parse_accordion a with
  | .ok d => some d
  | .error _ => none

/-- The `ParseError` the aggregation loop records for a fragment, when its
parse raises `ValueError`. -/
def errOf (a : Node) : Option ParseError :=
  match parse_accordion a with
  | .error (.valueError m) => some ⟨attrGet a "id", m⟩
  | _ => none

/-- Whether a fragment parses successfully. -/
def parseOk (a : Node) : Bool :=
  match parse_accordion a with
  | .ok _ => true
  | .error _ => false

/-- Whether a fragment's parse escapes with `StopIteration`. -/
def stopsIter (a : Node) : Bool :=
  match parse_accordion a with
  | .error .stopIteration => true
  | _ => false

/-- A dataset like the parsed fixture but with no "Direct download" link. -/
def dsNoDd : Dataset :=
  { fixDataset with links := [⟨"Other", "https://host/o"⟩] }

/-- A dataset carrying two "Direct download" links. -/
def dsTwoDd : Dataset :=
  { fixDataset with
      links := [⟨"Direct download", "https://host/p1"⟩,
                ⟨"Direct download", "https://host/p2"⟩] }

/-- A span whose `.string` is exactly the download label. -/
def fixSpanLabel : Node :=
  .elem "span" [] [.text "Download all files"]

/-- An anchor wrapping the labeled span whose `href` is the empty string. -/
def fixAnchorEmptyHref : Node :=
  .elem "a" [("href", "")] [fixSpanLabel]

/-- A download page whose labeled anchor has an empty `href`. -/
def fixPageEmptyHref : Node :=
  .elem "html" [] [.elem "body" [] [fixAnchorEmptyHref]]

/-- The qualifying test of the resolver: a span whose `.string` is exactly
the label, whose nearest `a` ancestor exists and carries a nonempty `href`;
yields that href. -/
def spanHref (p : Node × List Node) : Option String :=
  if nodeString p.1 == some "Download all files" then
    match p.2.find? (fun n => tagOf n == some "a") with
    | some link =>
      match attrGet link "href" with
      | some href => if !href.isEmpty then some href else none
      | none => none
    | none => none
  else none

example : parse_accordion fixAccValid = .ok fixDataset := rfl
example : parse_accordion fixAccNoTitleText = .error .stopIteration := rfl
example : parse_accordion fixAccNoCov
    = .error (.valueError "Missing required field: temporal coverage") := rfl
example : parse_accordion fixAccNoCovNoFact
    = .error (.valueError "Missing required field: temporal coverage") := rfl
example : parse_accordion fixAccCovNoFact
    = .error (.valueError "Missing required field: Metadata Factsheet") := rfl
example : parse_accordions (fixDoc [fixAccValid, fixAccNoCov])
    = .ok ⟨[fixDataset], [⟨some "d3", "Missing required field: temporal coverage"⟩]⟩ := rfl
example : parse_accordions (fixDoc [fixAccValid, fixAccNoTitleText])
    = .error .stopIteration := rfl
example : parse_accordions (fixDoc [fixAccNoId]) = .ok ⟨[], []⟩ := rfl
example : (selectAccordions (fixDoc [fixAccNoId])).length = 1 := by decide
example : parse_date "9 May 2019" = some ⟨2019, 5, 9⟩ := by decide
example : parse_date "garbled" = none := by decide
example : parse_years "2005-2024" = some (2005, 2024) := by decide
example : parse_years "2005" = none := by decide

example : resolve_download_url_from_html fixDownloadPage = .ok "https://host/archive.zip" := rfl
example : resolve_download_url_from_html (fixDoc [])
    = .error (.valueError "Could not find 'Download all files' link on page") := rfl

example : get_file_type "data.csv" = "csv" := by decide
example : get_file_type "report.PDF" = "pdf" := by decide
example : get_file_type "archive.tar.gz" = "gz" := by decide
example : get_file_type "README" = "" := by decide
example : get_file_type ".gitignore" = "gitignore" := by decide
example : get_file_type "a.b/c" = "b/c" := by decide
example : fnmatch "emissions.csv" "*.csv" = true := by decide
example : fnmatch "README.md" "*.csv" = false := by decide
example : fnmatch "Allowances_2024.csv" "Allowances*" = true := by decide
example : is_cloud_path "s3://bucket/file.zip" = true := by decide
example : is_cloud_path "file://local/file.zip" = false := by decide
example : is_cloud_path "/absolute/path" = false := by decide
example : pyInt "2005" = some 2005 := by decide
example : pyInt " -17 " = some (-17) := by decide
example : pyInt "20a5" = none := by decide
example : pySplitChar '-' "2005-2024" = ["2005", "2024"] := by decide
example : pySplitChar '-' "2005" = ["2005"] := by decide
example : afterLastChar '/' "a/b/c.txt" = "c.txt" := by decide
example : pyStrip "  x y\n" = "x y" := by decide

/-! ## Claim-side (spec-worded) definitions for refinement comparisons -/

/-- The code's extension rule coincides with the spec rule pointwise — on
the string the code actually passes, which is the full internal path. -/
theorem get_file_type_eq_claim (s : String) : get_file_type s = claimFileType s := by
  unfold get_file_type claimFileType
  by_cases h : s.data.contains '.' = true
  · simp only [h, if_true]
    by_cases h2 : pyLower (afterLastChar '.' s) = pyLower s
    · simp [h2]
    · simp [h2, bne_iff_ne, h2]
  · simp only [Bool.not_eq_true] at h
    simp only [h, Bool.false_eq_true, if_false]
    split <;> rfl

/-! ## C1 -/

/-- C1 (counterexample): for the archive holding the single non-directory
entry `a.b/c`, the code derives `file_type` from the full internal path and
reports `"b/c"`, while the claim's basename rule demands the empty string
(the basename `c` has no dot). -/
theorem c1_file_type_counterexample :
    (list_files_from_bytes [⟨"a.b/c", [42]⟩]).map ArchiveFile.file_type = ["b/c"]
    ∧ claimFileType (afterLastChar '/' "a.b/c") = ""
    ∧ ("b/c" : String) ≠ "" :=
  ⟨rfl, rfl, by decide⟩

/-- C1 (amended): `list_files_from_bytes` returns exactly the non-directory
entries, in archive order, with `name` the basename (text after the last
`/`), `size` the uncompressed byte count, and `file_type` the spec's
extension rule applied to the FULL internal entry path — not to the
basename. -/
theorem c1_list_files_amended (z : ZipArchive) :
    list_files_from_bytes z
      = (z.filter (fun e => !e.isDir)).map (fun e =>
          { name := afterLastChar '/' e.filename,
            size := e.content.length,
            file_type := claimFileType e.filename }) := by
  unfold list_files_from_bytes
  exact List.map_congr_left (fun e _ => by rw [get_file_type_eq_claim])

/-! ## C9 -/

/-- The extraction loop does nothing when no remaining non-directory entry's
basename matches the pattern. -/
theorem extractLoop_no_match (z : ZipArchive) (pattern out : String) :
    ∀ (es : List ZipEntry) (fs : FS),
      (∀ e ∈ es, e.isDir = false → fnmatch (afterLastChar '/' e.filename) pattern = false) →
      extractLoop z pattern out es fs = ([], fs) := by
  intro es
  induction es with
  | nil => intro fs _; rfl
  | cons info rest ih =>
    intro fs h
    unfold extractLoop
    by_cases hd : info.isDir = true
    · simp only [hd, if_true]
      exact ih fs (fun e he => h e (List.mem_cons_of_mem _ he))
    · simp only [Bool.not_eq_true] at hd
      have hm := h info (List.mem_cons_self _ _) hd
      simp only [hd, Bool.false_eq_true, if_false, hm, Bool.not_false, if_true]
      exact ih fs (fun e he => h e (List.mem_cons_of_mem _ he))

/-- C9: on a decoded archive none of whose non-directory entries matches the
pattern, `extract_files_from_bytes` returns the empty list and leaves the
filesystem state — written files and existing directories alike — exactly as
it was: no file is written and the destination directory is not created. -/
theorem c9_extract_no_match (z : ZipArchive) (pattern output_dir : String) (fs : FS)
    (h : ∀ e ∈ z, e.isDir = false → fnmatch (afterLastChar '/' e.filename) pattern = false) :
    extract_files_from_bytes z pattern output_dir fs = ([], fs) :=
  extractLoop_no_match z pattern (rstripChar '/' output_dir) z fs h

/-- C9 (witness): a concrete archive with one csv file and one directory
entry, extracted with pattern `*.txt` into `out`: nothing matches, nothing
changes. -/
theorem c9_extract_no_match_witness :
    (∀ e ∈ ([⟨"data/a.csv", [1, 2]⟩, ⟨"data/", []⟩] : ZipArchive),
      e.isDir = false → fnmatch (afterLastChar '/' e.filename) "*.txt" = false)
    ∧ extract_files_from_bytes [⟨"data/a.csv", [1, 2]⟩, ⟨"data/", []⟩] "*.txt" "out"
        ⟨[], []⟩ = ([], ⟨[], []⟩) :=
  ⟨by decide, c9_extract_no_match _ "*.txt" "out" ⟨[], []⟩ (by decide)⟩

/-! ## C2 -/

/-- C2 (counterexample): the entries `a/x` and `b/x` share the basename `x`.
Extracting with pattern `x` returns the path `out/x` twice; the second write
overwrites the first, so the path returned for the first entry (bytes `[1]`)
ends up holding the second entry's bytes `[2]`: the returned paths do not
all hold their corresponding entry's decompressed content. -/
theorem c2_extract_counterexample :
    (extract_files_from_bytes [⟨"a/x", [1]⟩, ⟨"b/x", [2]⟩] "x" "out" ⟨[], []⟩).1
        = ["out/x", "out/x"]
    ∧ (matchedEntries [⟨"a/x", [1]⟩, ⟨"b/x", [2]⟩] "x").map ZipEntry.content = [[1], [2]]
    ∧ (extract_files_from_bytes [⟨"a/x", [1]⟩, ⟨"b/x", [2]⟩] "x" "out" ⟨[], []⟩).2.read "out/x"
        = some [2]
    ∧ ([2] : List Nat) ≠ [1] :=
  ⟨rfl, rfl, rfl, by decide⟩

/-! ### Machinery for the amended C2 -/

/-- Reading is unaffected by a write at a different path. -/
theorem FS.read_write_ne (fs : FS) (p q : String) (c : List Nat) (h : q ≠ p) :
    (fs.write p c).read q = fs.read q := by
  unfold FS.write FS.read
  have : (p == q) = false := by
    simp only [beq_eq_false_iff_ne, ne_eq]
    exact fun hpq => h hpq.symm
  simp [List.find?, this]

/-- Reading the just-written path yields the written content. -/
theorem FS.read_write_self (fs : FS) (p : String) (c : List Nat) :
    (fs.write p c).read p = some c := by
  unfold FS.write FS.read
  simp [List.find?]

/-- Making a directory does not change any file content. -/
theorem FS.read_mkdirP (fs : FS) (d p : String) : (fs.mkdirP d).read p = fs.read p := by
  unfold FS.mkdirP
  split <;> rfl

/-- The selection test depends only on the entry's filename. -/
theorem matchPred_congr (pattern : String) (e f : ZipEntry) (h : e.filename = f.filename) :
    matchPred pattern e = matchPred pattern f := by
  unfold matchPred ZipEntry.isDir
  rw [h]

/-- The paths returned by the extraction loop are the matched entries'
output paths, in entry order. -/
theorem extractLoop_fst (z : ZipArchive) (pattern out : String) :
    ∀ (es : List ZipEntry) (fs : FS),
      (extractLoop z pattern out es fs).1
        = (matchedEntries es pattern).map (fun e => out ++ "/" ++ afterLastChar '/' e.filename) := by
  intro es
  induction es with
  | nil => intro fs; rfl
  | cons info rest ih =>
    intro fs
    unfold extractLoop matchedEntries matchPred
    by_cases hd : info.isDir = true
    · simp only [hd, if_true, List.filter_cons, Bool.not_true, Bool.false_and,
        Bool.false_eq_true, if_false]
      exact ih fs
    · simp only [Bool.not_eq_true] at hd
      by_cases hm : fnmatch (afterLastChar '/' info.filename) pattern = true
      · simp only [hd, Bool.false_eq_true, if_false, hm, Bool.not_true, Bool.false_eq_true,
          if_false, List.filter_cons, Bool.not_false, Bool.true_and, if_true, List.map_cons]
        exact congrArg _ (ih _)
      · simp only [Bool.not_eq_true] at hm
        simp only [hd, Bool.false_eq_true, if_false, hm, Bool.not_false, if_true,
          List.filter_cons, Bool.true_and, Bool.false_eq_true]
        exact ih fs

/-- Reading through the conditional mkdir of the loop body. -/
theorem FS.read_mkdirP_cond (fs : FS) (out p : String) :
    (if is_cloud_path out then fs else fs.mkdirP out).read p = fs.read p := by
  split
  · rfl
  · exact FS.read_mkdirP fs out p

/-- Paths not returned by the extraction loop read back unchanged. -/
theorem extractLoop_frame (z : ZipArchive) (pattern out : String) :
    ∀ (es : List ZipEntry) (fs : FS) (p : String),
      p ∉ (extractLoop z pattern out es fs).1 →
      (extractLoop z pattern out es fs).2.read p = fs.read p := by
  intro es
  induction es with
  | nil => intro fs p _; rfl
  | cons info rest ih =>
    intro fs p hp
    unfold extractLoop at hp ⊢
    by_cases hd : info.isDir = true
    · simp only [hd, if_true] at hp ⊢
      exact ih fs p hp
    · simp only [Bool.not_eq_true] at hd
      by_cases hm : fnmatch (afterLastChar '/' info.filename) pattern = true
      · simp only [hd, Bool.false_eq_true, if_false, hm, Bool.not_true, if_false] at hp ⊢
        have hne : p ≠ out ++ "/" ++ afterLastChar '/' info.filename := fun he =>
          hp (he ▸ List.mem_cons_self _ _)
        have hnm : p ∉ (extractLoop z pattern out rest
            ((if is_cloud_path out then fs else fs.mkdirP out).write
              (out ++ "/" ++ afterLastChar '/' info.filename)
              (zipRead z info.filename))).1 := fun hm2 =>
          hp (List.mem_cons_of_mem _ hm2)
        rw [ih _ p hnm, FS.read_write_ne _ _ _ _ hne, FS.read_mkdirP_cond fs out p]
      · simp only [Bool.not_eq_true] at hm
        simp only [hd, Bool.false_eq_true, if_false, hm, Bool.not_false, if_true] at hp ⊢
        exact ih fs p hp

/-- When the output paths of the matched entries are pairwise distinct, each
matched entry's output path reads back as the bytes the loop wrote for it:
`ZipFile.read` of its filename. -/
theorem extractLoop_read_matched (z : ZipArchive) (pattern out : String) :
    ∀ (es : List ZipEntry) (fs : FS),
      ((matchedEntries es pattern).map
          (fun e => out ++ "/" ++ afterLastChar '/' e.filename)).Nodup →
      ∀ e ∈ matchedEntries es pattern,
        (extractLoop z pattern out es fs).2.read (out ++ "/" ++ afterLastChar '/' e.filename)
          = some (zipRead z e.filename) := by
  intro es
  induction es with
  | nil => intro fs _ e he; exact absurd he (List.not_mem_nil e)
  | cons info rest ih =>
    intro fs hnd e he
    unfold matchedEntries at he hnd
    unfold extractLoop
    rw [List.filter_cons] at he hnd
    by_cases hP : matchPred pattern info = true
    · simp only [hP, if_true] at he hnd
      have hd : info.isDir = false := by
        have := hP
        unfold matchPred at this
        cases hdd : info.isDir with
        | false => rfl
        | true => rw [hdd] at this; simp at this
      have hm : fnmatch (afterLastChar '/' info.filename) pattern = true := by
        have := hP
        unfold matchPred at this
        rw [hd] at this
        simpa using this
      simp only [hd, Bool.false_eq_true, if_false, hm, Bool.not_true, if_false]
      rw [List.map_cons, List.nodup_cons] at hnd
      rcases List.mem_cons.mp he with he1 | he2
      · subst he1
        have hfst := extractLoop_fst z pattern out rest
          ((if is_cloud_path out then fs else fs.mkdirP out).write
            (out ++ "/" ++ afterLastChar '/' e.filename) (zipRead z e.filename))
        have hnotin : (out ++ "/" ++ afterLastChar '/' e.filename)
            ∉ (extractLoop z pattern out rest
              ((if is_cloud_path out then fs else fs.mkdirP out).write
                (out ++ "/" ++ afterLastChar '/' e.filename) (zipRead z e.filename))).1 := by
          rw [hfst]
          exact hnd.1
        rw [extractLoop_frame z pattern out rest _ _ hnotin]
        exact FS.read_write_self _ _ _
      · exact ih _ hnd.2 e he2
    · simp only [hP, Bool.false_eq_true, if_false] at he hnd
      have hskip : info.isDir = true ∨ fnmatch (afterLastChar '/' info.filename) pattern = false := by
        unfold matchPred at hP
        cases hdd : info.isDir with
        | true => exact Or.inl rfl
        | false =>
          rw [hdd] at hP
          simp at hP
          exact Or.inr hP
      rcases hskip with hd | hm
      · simp only [hd, if_true]
        exact ih fs hnd e he
      · cases hdd : info.isDir with
        | true =>
          simp only [if_true]
          exact ih fs hnd e he
        | false =>
          simp only [Bool.false_eq_true, if_false, hm, Bool.not_false, if_true]
          exact ih fs hnd e he

/-- When the matched entries' basenames are pairwise distinct, each matched
entry is the unique archive entry bearing its filename, so `ZipFile.read`
returns exactly its content. -/
theorem zipRead_matched (z : ZipArchive) (pattern : String)
    (hnd : ((matchedEntries z pattern).map (fun e => afterLastChar '/' e.filename)).Nodup) :
    ∀ e ∈ matchedEntries z pattern, zipRead z e.filename = e.content := by
  induction z with
  | nil => intro e he; exact absurd he (List.not_mem_nil e)
  | cons x rest ih =>
    intro e he
    unfold matchedEntries at he hnd
    rw [List.filter_cons] at he hnd
    unfold zipRead
    rw [List.filter_cons]
    by_cases hP : matchPred pattern x = true
    · simp only [hP, if_true, List.map_cons, List.nodup_cons] at he hnd
      rcases List.mem_cons.mp he with he1 | he2
      · subst he1
        have hself : (e.filename == e.filename) = true := by simp
        rw [hself]
        simp only [if_true]
        have hnil : rest.filter (fun y => y.filename == e.filename) = [] := by
          rw [List.filter_eq_nil_iff]
          intro y hy hyname
          have hyn : y.filename = e.filename := by simpa using hyname
          have hyP : matchPred pattern y = true := (matchPred_congr pattern y e hyn).symm ▸ hP
          have hym : y ∈ rest.filter (matchPred pattern) := List.mem_filter.mpr ⟨hy, hyP⟩
          have : afterLastChar '/' y.filename
              ∈ (rest.filter (matchPred pattern)).map (fun f => afterLastChar '/' f.filename) :=
            List.mem_map.mpr ⟨y, hym, rfl⟩
          rw [hyn] at this
          exact hnd.1 this
        rw [hnil]
        rfl
      · have hne : (x.filename == e.filename) = false := by
          rw [beq_eq_false_iff_ne]
          intro hxe
          have heP : matchPred pattern e = true := (List.mem_filter.mp he2).2
          have hbn : afterLastChar '/' e.filename
              ∈ (rest.filter (matchPred pattern)).map (fun f => afterLastChar '/' f.filename) :=
            List.mem_map.mpr ⟨e, he2, rfl⟩
          rw [← hxe] at hbn
          exact hnd.1 hbn
        rw [hne]
        simp only [Bool.false_eq_true, if_false]
        have := ih hnd.2 e he2
        unfold zipRead at this
        exact this
    · simp only [hP, Bool.false_eq_true, if_false] at he hnd
      have hne : (x.filename == e.filename) = false := by
        rw [beq_eq_false_iff_ne]
        intro hxe
        have heP : matchPred pattern e = true := (List.mem_filter.mp he).2
        have hxP : matchPred pattern x = true := (matchPred_congr pattern x e hxe) ▸ heP
        exact hP hxP
      rw [hne]
      simp only [Bool.false_eq_true, if_false]
      have := ih hnd e he
      unfold zipRead at this
      exact this

/-- Appending to a fixed string on the left is injective. -/
theorem string_append_left_inj (a : String) :
    Function.Injective (fun b : String => a ++ b) := by
  intro b c h
  cases a with
  | mk la =>
    cases b with
    | mk lb =>
      cases c with
      | mk lc =>
        have hd : la ++ lb = la ++ lc := congrArg String.data h
        exact congrArg String.mk (List.append_cancel_left hd)

/-- C2 (amended): provided the matched entries' basenames are pairwise
distinct — which fails exactly in the counterexample's collision case —
`extract_files_from_bytes` (i) returns the matched entries' output paths in
archive order, (ii) every returned path afterwards holds the corresponding
entry's decompressed bytes, and (iii) any other path, hence every
non-matching entry's would-be output, is untouched. -/
theorem c2_extract_amended (z : ZipArchive) (pattern output_dir : String) (fs : FS)
    (hnd : ((matchedEntries z pattern).map (fun e => afterLastChar '/' e.filename)).Nodup) :
    (extract_files_from_bytes z pattern output_dir fs).1
      = (matchedEntries z pattern).map
          (fun e => rstripChar '/' output_dir ++ "/" ++ afterLastChar '/' e.filename)
    ∧ (∀ e ∈ matchedEntries z pattern,
        (extract_files_from_bytes z pattern output_dir fs).2.read
          (rstripChar '/' output_dir ++ "/" ++ afterLastChar '/' e.filename) = some e.content)
    ∧ (∀ p, p ∉ (extract_files_from_bytes z pattern output_dir fs).1 →
        (extract_files_from_bytes z pattern output_dir fs).2.read p = fs.read p) := by
  have hout : ∀ e : ZipEntry,
      rstripChar '/' output_dir ++ "/" ++ afterLastChar '/' e.filename
        = (rstripChar '/' output_dir ++ "/") ++ afterLastChar '/' e.filename := by
    intro e
    rw [String.append_assoc]
  have hndPaths : ((matchedEntries z pattern).map
      (fun e => rstripChar '/' output_dir ++ "/" ++ afterLastChar '/' e.filename)).Nodup := by
    have hcomp : (matchedEntries z pattern).map
        (fun e => (rstripChar '/' output_dir ++ "/") ++ afterLastChar '/' e.filename)
        = ((matchedEntries z pattern).map (fun e => afterLastChar '/' e.filename)).map
            (fun b => (rstripChar '/' output_dir ++ "/") ++ b) := by
      rw [List.map_map]
      rfl
    have : ((matchedEntries z pattern).map
        (fun e => (rstripChar '/' output_dir ++ "/") ++ afterLastChar '/' e.filename)).Nodup := by
      rw [hcomp]
      exact hnd.map (string_append_left_inj _)
    simpa only [← hout] using this
  refine ⟨extractLoop_fst z pattern _ z fs, ?_, ?_⟩
  · intro e he
    have hr := extractLoop_read_matched z pattern (rstripChar '/' output_dir) z fs hndPaths e he
    rw [zipRead_matched z pattern hnd e he] at hr
    exact hr
  · intro p hp
    exact extractLoop_frame z pattern _ z fs p hp

/-- C2 (witness): a three-file archive with distinct basenames, extracted
with `*.csv` into `out`: the two csv entries come back in order and each
written path holds that entry's bytes. -/
theorem c2_extract_amended_witness :
    ((matchedEntries [⟨"a/x.csv", [1, 2]⟩, ⟨"b/y.csv", [3]⟩, ⟨"n.txt", [4]⟩] "*.csv").map
        (fun e => afterLastChar '/' e.filename)).Nodup
    ∧ (extract_files_from_bytes [⟨"a/x.csv", [1, 2]⟩, ⟨"b/y.csv", [3]⟩, ⟨"n.txt", [4]⟩]
        "*.csv" "out" ⟨[], []⟩).1 = ["out/x.csv", "out/y.csv"]
    ∧ (extract_files_from_bytes [⟨"a/x.csv", [1, 2]⟩, ⟨"b/y.csv", [3]⟩, ⟨"n.txt", [4]⟩]
        "*.csv" "out" ⟨[], []⟩).2.read "out/x.csv" = some [1, 2] := by
  have h := c2_extract_amended [⟨"a/x.csv", [1, 2]⟩, ⟨"b/y.csv", [3]⟩, ⟨"n.txt", [4]⟩]
    "*.csv" "out" ⟨[], []⟩ (by decide)
  refine ⟨by decide, ?_, ?_⟩
  · rw [h.1]; rfl
  · exact h.2.1 ⟨"a/x.csv", [1, 2]⟩ (by decide)

/-! ## C3 -/

/-- Generic length bridge: a `filterMap` is as long as the `filter` by the
domain of the partial map. -/
theorem length_filterMap_eq_length_filter {α β : Type} (f : α → Option β) (p : α → Bool) :
    ∀ l : List α, (∀ a ∈ l, (f a).isSome = p a) →
      (l.filterMap f).length = (l.filter p).length := by
  intro l
  induction l with
  | nil => intro _; rfl
  | cons x xs ih =>
    intro h
    have hx := h x (List.mem_cons_self _ _)
    have hxs := ih (fun a ha => h a (List.mem_cons_of_mem _ ha))
    rw [List.filterMap_cons, List.filter_cons]
    cases hfx : f x with
    | none =>
      rw [hfx] at hx
      simp only [Option.isSome_none] at hx
      rw [← hx]
      simpa using hxs
    | some b =>
      rw [hfx] at hx
      simp only [Option.isSome_some] at hx
      rw [← hx]
      simpa using hxs

/-- The aggregation loop on a fragment list none of which stops iteration:
successes and `ValueError` failures are partitioned in encounter order. -/
theorem parseAccList_ok (l : List Node)
    (h : ∀ a ∈ l, (attrGet a "id").isSome → stopsIter a = false) :
    parseAccList l
      = .ok ((l.filter (fun a => (attrGet a "id").isSome)).filterMap okOf,
             (l.filter (fun a => (attrGet a "id").isSome)).filterMap errOf) := by
  induction l with
  | nil => rfl
  | cons a rest ih =>
    have hrest := ih (fun x hx => h x (List.mem_cons_of_mem _ hx))
    unfold parseAccList
    rw [List.filter_cons]
    cases hid : attrGet a "id" with
    | none =>
      simp only [hid, Option.isSome_none, Bool.false_eq_true, if_false]
      exact hrest
    | some accId =>
      have hsi := h a (List.mem_cons_self _ _) (by rw [hid]; rfl)
      unfold stopsIter at hsi
      simp only [hid, Option.isSome_some, if_true, List.filterMap_cons]
      cases hp : parse_accordion a with
      | ok d =>
        unfold okOf errOf
        simp only [hp, hrest]
        rfl
      | error ex =>
        cases ex with
        | valueError m =>
          unfold okOf errOf
          simp only [hp, hrest, hid]
          rfl
        | stopIteration => rw [hp] at hsi; simp at hsi

/-- C3 (counterexample): a document with one fragment that parses
successfully and one fragment that fails to parse (its title region is
text-free, so parsing raises `StopIteration`); instead of yielding one
dataset and one error, the aggregation aborts with the escaped exception,
the successful sibling's result included. -/
theorem c3_aggregation_counterexample :
    (selectAccordions (fixDoc [fixAccValid, fixAccNoTitleText])).map parseOk = [true, false]
    ∧ parse_accordions (fixDoc [fixAccValid, fixAccNoTitleText]) = .error .stopIteration :=
  ⟨rfl, rfl⟩

/-- C3 (amended): for every document none of whose identified fragments
raises `StopIteration` (they parse, or fail with the parser's `ValueError`),
aggregation returns exactly the successes as datasets and exactly the
`ValueError` failures as errors, both in document encounter order, with no
cross-contamination: the dataset list is the fragment-wise parse results of
the successful fragments and the error list the messages of the failed
ones. -/
theorem c3_aggregation_amended (doc : Node)
    (h : ∀ a ∈ fragsOf doc, stopsIter a = false) :
    parse_accordions doc
      = .ok ⟨(fragsOf doc).filterMap okOf, (fragsOf doc).filterMap errOf⟩
    ∧ ((fragsOf doc).filterMap okOf).length
        = ((fragsOf doc).filter (fun a => parseOk a)).length
    ∧ ((fragsOf doc).filterMap errOf).length
        = ((fragsOf doc).filter (fun a => !parseOk a)).length := by
  have hfull : ∀ a ∈ selectAccordions doc, (attrGet a "id").isSome → stopsIter a = false := by
    intro a ha hid
    exact h a (List.mem_filter.mpr ⟨ha, hid⟩)
  refine ⟨?_, ?_, ?_⟩
  · unfold parse_accordions
    rw [parseAccList_ok (selectAccordions doc) hfull]
    rfl
  · apply length_filterMap_eq_length_filter
    intro a _
    unfold okOf parseOk
    cases parse_accordion a <;> rfl
  · apply length_filterMap_eq_length_filter
    intro a ha
    have := h a ha
    unfold stopsIter at this
    unfold errOf parseOk
    cases hp : parse_accordion a with
    | ok d => rfl
    | error ex =>
      cases ex with
      | valueError m => rfl
      | stopIteration => rw [hp] at this; simp at this

/-- C3 (witness): a document with one valid and one coverage-less fragment:
aggregation yields exactly that dataset and exactly that error. -/
theorem c3_aggregation_amended_witness :
    (∀ a ∈ fragsOf (fixDoc [fixAccValid, fixAccNoCov]), stopsIter a = false)
    ∧ parse_accordions (fixDoc [fixAccValid, fixAccNoCov])
        = .ok ⟨[fixDataset], [⟨some "d3", "Missing required field: temporal coverage"⟩]⟩ := by
  have h := c3_aggregation_amended (fixDoc [fixAccValid, fixAccNoCov]) (by decide)
  exact ⟨by decide, by rw [h.1]; rfl⟩

/-! ## C4 -/

/-- C4 (counterexample): `fixAccNoCovNoFact` is a dataset fragment missing
the "Metadata Factsheet" link (second conjunct), yet its parse error is the
temporal-coverage message, which does not mention "Metadata Factsheet": the
coverage check fires first, so the claim's second universal statement fails
on fragments missing both fields. -/
theorem c4_missing_field_counterexample :
    parse_accordion fixAccNoCovNoFact
      = .error (.valueError "Missing required field: temporal coverage")
    ∧ dictFind (collectLinks fixContentNoCovNoFact) "Metadata Factsheet" = none
    ∧ hasSubstr "Missing required field: temporal coverage" "Metadata Factsheet" = false :=
  ⟨rfl, rfl, by decide⟩

/-- C4 (amended): for a fragment whose required structural elements are in
place (title region, content region, formats span, format label, nonempty
title text): if the temporal-coverage field is missing the parse raises
`ValueError` whose message names temporal coverage (case-insensitively) and
aggregation records exactly that `ParseError` and no dataset; if coverage is
present but the "Metadata Factsheet" link is missing, the same happens with
the factsheet message.  The two checks run in that order, so only the first
missing field is reported. -/
theorem c4_missing_field_amended (a ts ct fsp : Node) (t : String)
    (h1 : selectOneClass a "dataset-title" = some ts)
    (h2 : selectOneClass a "content" = some ct)
    (h3 : selectOneClass ts "formats" = some fsp)
    (h4 : (selectOneClass fsp "dh-label").isSome = true)
    (h5 : (strippedStrings ts).head? = some t) :
    (extract_field ct "Temporal coverage:" parse_years = none →
      parse_accordion a = .error (.valueError "Missing required field: temporal coverage")
      ∧ ∀ i, attrGet a "id" = some i →
          parseAccList [a]
            = .ok ([], [⟨some i, "Missing required field: temporal coverage"⟩]))
    ∧ (∀ cov, extract_field ct "Temporal coverage:" parse_years = some cov →
        dictFind (collectLinks ct) "Metadata Factsheet" = none →
        parse_accordion a = .error (.valueError "Missing required field: Metadata Factsheet")
        ∧ ∀ i, attrGet a "id" = some i →
            parseAccList [a]
              = .ok ([], [⟨some i, "Missing required field: Metadata Factsheet"⟩]))
    ∧ hasSubstr (pyLower "Missing required field: temporal coverage")
        (pyLower "Temporal coverage") = true
    ∧ hasSubstr "Missing required field: Metadata Factsheet" "Metadata Factsheet" = true := by
  obtain ⟨fl, hfl⟩ := Option.isSome_iff_exists.mp h4
  refine ⟨?_, ?_, by decide, by decide⟩
  · intro hcov
    have hpa : parse_accordion a
        = .error (.valueError "Missing required field: temporal coverage") := by
      unfold parse_accordion selectReq
      simp only [h1, h2, h3, hfl, h5, hcov]
    refine ⟨hpa, ?_⟩
    intro i hi
    unfold parseAccList
    rw [hi, hpa]
    rfl
  · intro cov hcov hfact
    have hpa : parse_accordion a
        = .error (.valueError "Missing required field: Metadata Factsheet") := by
      unfold parse_accordion selectReq
      simp only [h1, h2, h3, hfl, h5, hcov, hfact]
    refine ⟨hpa, ?_⟩
    intro i hi
    unfold parseAccList
    rw [hi, hpa]
    rfl

/-- C4 (witness): the amended statement at the concrete fragments
`fixAccNoCov` (well-formed, coverage missing) and `fixAccCovNoFact`
(coverage present, factsheet missing). -/
theorem c4_missing_field_amended_witness :
    parse_accordion fixAccNoCov
      = .error (.valueError "Missing required field: temporal coverage")
    ∧ parseAccList [fixAccNoCov]
        = .ok ([], [⟨some "d3", "Missing required field: temporal coverage"⟩])
    ∧ parse_accordion fixAccCovNoFact
        = .error (.valueError "Missing required field: Metadata Factsheet")
    ∧ parseAccList [fixAccCovNoFact]
        = .ok ([], [⟨some "d5", "Missing required field: Metadata Factsheet"⟩]) := by
  have hA := c4_missing_field_amended fixAccNoCov fixTitle fixContentNoCov fixFormats
    "EU ETS data" rfl rfl rfl rfl rfl
  have hB := c4_missing_field_amended fixAccCovNoFact fixTitle fixContentCovNoFact fixFormats
    "EU ETS data" rfl rfl rfl rfl rfl
  exact ⟨(hA.1 rfl).1, (hA.1 rfl).2 "d3" rfl,
    (hB.2.1 (2005, 2024) rfl rfl).1, (hB.2.1 (2005, 2024) rfl rfl).2 "d5" rfl⟩

/-! ## C7 -/

/-- C7 (counterexample): a document whose single fragment carries no `id`:
aggregation returns empty datasets and empty errors — the fragment is
silently omitted from both lists, and no `ParseError` with `dataset_id =
none` is recorded. -/
theorem c7_no_id_counterexample :
    (selectAccordions (fixDoc [fixAccNoId])).map (fun a => attrGet a "id") = [none]
    ∧ parse_accordions (fixDoc [fixAccNoId]) = .ok ⟨[], []⟩ :=
  ⟨rfl, rfl⟩

/-- C7 (amended): fragments whose identifier cannot be read are silently
skipped — the aggregation loop behaves as if they were not there — and every
`ParseError` the loop does record carries the fragment's identifier, so
`dataset_id` is never `none` in an aggregation result. -/
theorem c7_no_id_amended (l : List Node) :
    parseAccList l = parseAccList (l.filter (fun a => (attrGet a "id").isSome))
    ∧ (∀ r, parseAccList l = .ok r → ∀ e ∈ r.2, e.dataset_id.isSome = true) := by
  induction l with
  | nil =>
    refine ⟨rfl, ?_⟩
    intro r hr e he
    injection hr with h
    rw [← h] at he
    exact absurd he (List.not_mem_nil e)
  | cons a rest ih =>
    constructor
    · rw [List.filter_cons]
      cases hid : attrGet a "id" with
      | none =>
        simp only [hid, Option.isSome_none, Bool.false_eq_true, if_false]
        have hskip : parseAccList (a :: rest) = parseAccList rest := by
          conv_lhs => unfold parseAccList
          rw [hid]
        rw [hskip]
        exact ih.1
      | some i =>
        simp only [hid, Option.isSome_some, if_true]
        unfold parseAccList
        rw [hid, ih.1]
    · intro r hr e he
      revert hr
      unfold parseAccList
      cases hid : attrGet a "id" with
      | none => exact fun hr => ih.2 r hr e he
      | some i =>
        cases hp : parse_accordion a with
        | ok d =>
          cases hrest : parseAccList rest with
          | error ex => exact fun hr => Except.noConfusion hr
          | ok rr =>
            intro hr
            injection hr with h
            rw [← h] at he
            exact ih.2 rr hrest e he
        | error ex =>
          cases ex with
          | valueError m =>
            cases hrest : parseAccList rest with
            | error ex2 => exact fun hr => Except.noConfusion hr
            | ok rr =>
              intro hr
              injection hr with h
              rw [← h] at he
              rcases List.mem_cons.mp he with he1 | he2
              · rw [he1]
                rfl
              · exact ih.2 rr hrest e he2
          | stopIteration => exact fun hr => Except.noConfusion hr

/-- C7 (witness): the amended statement at a concrete two-fragment list,
one fragment id-less and one valid: the id-less one drops out and the
recorded errors (there are none here) all carry identifiers. -/
theorem c7_no_id_amended_witness :
    parseAccList [fixAccNoId, fixAccValid] = parseAccList [fixAccValid]
    ∧ (∀ r, parseAccList [fixAccNoId, fixAccValid] = .ok r →
        ∀ e ∈ r.2, e.dataset_id.isSome = true) := by
  have h := c7_no_id_amended [fixAccNoId, fixAccValid]
  exact ⟨h.1.trans (by rfl), h.2⟩

/-! ## C10 -/

/-- A fragment list in which no fragment carries a string id aggregates to
the empty result. -/
theorem parseAccList_all_skipped (l : List Node) (h : ∀ a ∈ l, attrGet a "id" = none) :
    parseAccList l = .ok ([], []) := by
  induction l with
  | nil => rfl
  | cons a rest ih =>
    unfold parseAccList
    rw [h a (List.mem_cons_self _ _)]
    exact ih (fun x hx => h x (List.mem_cons_of_mem _ hx))

/-- C10: on a fetched document in which no element matches the structural
selector, or every matching fragment lacks a string `id`, simple-mode
aggregation succeeds with an empty dataset list and an empty error list
rather than failing. -/
theorem c10_empty_document (doc : Node)
    (h : ∀ a ∈ selectAccordions doc, attrGet a "id" = none) :
    fetch_datasets_simple doc = .ok ⟨[], []⟩ := by
  unfold fetch_datasets_simple parse_accordions
  rw [parseAccList_all_skipped (selectAccordions doc) h]
  rfl

/-- C10 (witness): a document whose only fragment has no id, and a document
with no fragments at all. -/
theorem c10_empty_document_witness :
    (∀ a ∈ selectAccordions (fixDoc [fixAccNoId]), attrGet a "id" = none)
    ∧ fetch_datasets_simple (fixDoc [fixAccNoId]) = .ok ⟨[], []⟩
    ∧ fetch_datasets_simple (fixDoc []) = .ok ⟨[], []⟩ :=
  ⟨by decide, c10_empty_document _ (by decide), c10_empty_document _ (by decide)⟩

/-! ## C5 -/

/-- C5 (counterexample): on a dataset with no "Direct download" link,
`Dataset.url` completes without error and returns `None` (the cache stays
unset, the state is unchanged); the error the claim expects surfaces only
later, in `_get_archive_bytes`. -/
theorem c5_url_counterexample :
    (datasetUrl (fun _ => "https://host/resolved") dsNoDd DatasetState.fresh).1.1 = none
    ∧ (datasetUrl (fun _ => "https://host/resolved") dsNoDd DatasetState.fresh).2
        = DatasetState.fresh
    ∧ getArchiveBytes (fun _ => "https://host/resolved") (fun _ => [7]) dsNoDd
        DatasetState.fresh
        = .error ("No download URL available for this dataset", DatasetState.fresh) :=
  ⟨rfl, rfl, rfl⟩

/-- The resolution loop does nothing when no link is labeled
"Direct download". -/
theorem urlLoop_no_dd (resolve : String → String) :
    ∀ (links : List Link) (c : Option String),
      (∀ l ∈ links, l.label ≠ "Direct download") →
      urlLoop resolve links c = (c, []) := by
  intro links
  induction links with
  | nil => intro c _; rfl
  | cons l rest ih =>
    intro c h
    unfold urlLoop
    have hl : (l.label == "Direct download") = false :=
      beq_eq_false_iff_ne.mpr (h l (List.mem_cons_self _ _))
    rw [hl]
    simp only [Bool.false_eq_true, if_false]
    exact ih c (fun x hx => h x (List.mem_cons_of_mem _ hx))

/-- Setting an already-unset URL cache to `none` is the identity. -/
theorem DatasetState.set_url_none (st : DatasetState) (hu : st.cached_archive_url = none) :
    ({ st with cached_archive_url := none } : DatasetState) = st := by
  cases st with
  | mk u b =>
    simp only at hu
    rw [hu]

/-- C5 (amended): on a dataset with no "Direct download" link and an unset
URL cache, `Dataset.url` returns `None` (an absent value, not an error) and
leaves the state unchanged; the `ValueError` is raised only when
`_get_archive_bytes` later consumes that `None`. -/
theorem c5_url_amended (resolve : String → String) (fetchArch : String → List Nat)
    (d : Dataset) (st : DatasetState)
    (hdd : ∀ l ∈ d.links, l.label ≠ "Direct download")
    (hu : st.cached_archive_url = none) :
    (datasetUrl resolve d st).1.1 = none
    ∧ (datasetUrl resolve d st).2 = st
    ∧ (st.cached_archive_bytes = none →
        getArchiveBytes resolve fetchArch d st
          = .error ("No download URL available for this dataset", st)) := by
  have hloop := urlLoop_no_dd resolve d.links none hdd
  have hurl : datasetUrl resolve d st = ((none, []), st) := by
    unfold datasetUrl
    rw [hu, hloop]
    exact congrArg _ (DatasetState.set_url_none st hu)
  refine ⟨by rw [hurl_fst hurl], by rw [hurl], ?_⟩
  intro hb
  unfold getArchiveBytes
  rw [hb, hurl_all hurl]
where
  hurl_fst {r : (Option String × List String) × DatasetState}
      (h : datasetUrl resolve d st = r) : (datasetUrl resolve d st).1.1 = r.1.1 := by rw [h]
  hurl_all {r : (Option String × List String) × DatasetState}
      (h : datasetUrl resolve d st = r) : datasetUrl resolve d st = r := h

/-- C5 (witness): the amended statement at the concrete no-download-link
dataset and a fresh state. -/
theorem c5_url_amended_witness :
    (∀ l ∈ dsNoDd.links, l.label ≠ "Direct download")
    ∧ (datasetUrl (fun _ => "u") dsNoDd DatasetState.fresh).1.1 = none
    ∧ getArchiveBytes (fun _ => "u") (fun _ => [7]) dsNoDd DatasetState.fresh
        = .error ("No download URL available for this dataset", DatasetState.fresh) := by
  have h := c5_url_amended (fun _ => "u") (fun _ => [7]) dsNoDd DatasetState.fresh
    (by decide) rfl
  exact ⟨by decide, h.1, h.2.2 rfl⟩

/-! ## C6 -/

/-- C6 (counterexample): the resolution loop has no `break`, so on a dataset
with two "Direct download" links the first `url()` call invokes the resolver
twice — the archive URL is computed twice on one instance — and the cache is
written twice, ending at the second resolution, a different value from the
first one assigned. -/
theorem c6_memo_counterexample :
    (datasetUrl (fun s => s ++ "/zip") dsTwoDd DatasetState.fresh).1.2
      = ["https://host/p1", "https://host/p2"]
    ∧ (datasetUrl (fun s => s ++ "/zip") dsTwoDd DatasetState.fresh).2.cached_archive_url
      = some "https://host/p2/zip"
    ∧ ("https://host/p1/zip" : String) ≠ "https://host/p2/zip" :=
  ⟨rfl, rfl, by decide⟩

/-- The resolution loop resolves exactly the "Direct download" links, in
order, and leaves the cache at the last resolution (or at its initial value
when there is none). -/
theorem urlLoop_spec (resolve : String → String) :
    ∀ (links : List Link) (c : Option String),
      (urlLoop resolve links c).2
          = (links.filter (fun l => l.label == "Direct download")).map Link.url
      ∧ (urlLoop resolve links c).1
          = (match (links.filter (fun l => l.label == "Direct download")).getLast? with
             | some l => some (resolve l.url)
             | none => c) := by
  intro links
  induction links with
  | nil => intro c; exact ⟨rfl, rfl⟩
  | cons l rest ih =>
    intro c
    unfold urlLoop
    rw [List.filter_cons]
    by_cases hl : (l.label == "Direct download") = true
    · simp only [hl, if_true, List.map_cons]
      refine ⟨congrArg _ (ih _).1, ?_⟩
      rw [(ih (some (resolve l.url))).2]
      cases hrf : rest.filter (fun x => x.label == "Direct download") with
      | nil => rfl
      | cons y ys =>
        have hw : (y :: ys).getLast? = some ((y :: ys).getLast (by simp)) :=
          List.getLast?_eq_getLast _ (by simp)
        rw [List.getLast?_cons_cons, hw]
    · simp only [hl, Bool.false_eq_true, if_false]
      exact ih c

/-- A `url()` call on a state whose URL cache is set returns the cached
value, calls no collaborator and leaves the state alone. -/
theorem datasetUrl_cached (resolve : String → String) (d : Dataset) (st : DatasetState)
    (u : String) (h : st.cached_archive_url = some u) :
    datasetUrl resolve d st = ((some u, []), st) := by
  unfold datasetUrl
  rw [h]

/-- A `url()` call on a state whose URL cache is unset runs the loop and
stores its result. -/
theorem datasetUrl_fresh (resolve : String → String) (d : Dataset) (st : DatasetState)
    (h : st.cached_archive_url = none) :
    datasetUrl resolve d st
      = (urlLoop resolve d.links none,
         { st with cached_archive_url := (urlLoop resolve d.links none).1 }) := by
  unfold datasetUrl
  rw [h]

/-- A second `url()` call on the state left by a first one performs no
resolver call and returns the first call's value with the state unchanged. -/
theorem datasetUrl_idem (resolve : String → String) (d : Dataset) (st : DatasetState) :
    datasetUrl resolve d ((datasetUrl resolve d st).2)
      = (((datasetUrl resolve d st).1.1, []), (datasetUrl resolve d st).2) := by
  cases hcu : st.cached_archive_url with
  | some u =>
    rw [datasetUrl_cached resolve d st u hcu]
    exact datasetUrl_cached resolve d st u hcu
  | none =>
    rw [datasetUrl_fresh resolve d st hcu]
    cases hr : (urlLoop resolve d.links none).1 with
    | some u =>
      exact datasetUrl_cached resolve d _ u rfl
    | none =>
      have hfilter : d.links.filter (fun l => l.label == "Direct download") = [] := by
        have h2 := (urlLoop_spec resolve d.links none).2
        rw [hr] at h2
        cases hrf : d.links.filter (fun l => l.label == "Direct download") with
        | nil => rfl
        | cons y ys =>
          rw [hrf] at h2
          have hw : (y :: ys).getLast? = some ((y :: ys).getLast (by simp)) :=
            List.getLast?_eq_getLast _ (by simp)
          rw [hw] at h2
          exact Option.noConfusion h2
      have hpair : urlLoop resolve d.links none = (none, []) := by
        have hc := (urlLoop_spec resolve d.links none).1
        rw [hfilter] at hc
        have : urlLoop resolve d.links none
            = ((urlLoop resolve d.links none).1, (urlLoop resolve d.links none).2) := rfl
        rw [this, hr, hc]
        rfl
      rw [hpair]
      have hst : ({ st with cached_archive_url := ((none, []) : Option String × List String).1 }
          : DatasetState).cached_archive_url = none := rfl
      rw [datasetUrl_fresh resolve d _ hst, hpair]

/-- C6 (amended): when the links hold at most one "Direct download" label —
true of every parser-built dataset, whose link labels are dict keys — the
first `url()` call resolves at most once; unconditionally, a second `url()`
call performs no resolver call and returns the memoized value with the state
unchanged, archive bytes already cached are returned without any collaborator
call, and a successful `_get_archive_bytes` fetches at most once and, when
repeated, returns the same bytes with no further calls. -/
theorem c6_memo_amended (resolve : String → String) (fetchArch : String → List Nat)
    (d : Dataset) (st : DatasetState)
    (hdd : d.links.countP (fun l => l.label == "Direct download") ≤ 1) :
    ((datasetUrl resolve d st).1.2).length ≤ 1
    ∧ datasetUrl resolve d ((datasetUrl resolve d st).2)
        = (((datasetUrl resolve d st).1.1, []), (datasetUrl resolve d st).2)
    ∧ (∀ b, st.cached_archive_bytes = some b →
        getArchiveBytes resolve fetchArch d st = .ok ((b, [], []), st))
    ∧ (∀ b rc fc st2, getArchiveBytes resolve fetchArch d st = .ok ((b, rc, fc), st2) →
        getArchiveBytes resolve fetchArch d st2 = .ok ((b, [], []), st2) ∧ fc.length ≤ 1) := by
  have hbytes : ∀ (st1 : DatasetState) (b : List Nat), st1.cached_archive_bytes = some b →
      getArchiveBytes resolve fetchArch d st1 = .ok ((b, [], []), st1) := by
    intro st1 b hb
    unfold getArchiveBytes
    rw [hb]
  refine ⟨?_, datasetUrl_idem resolve d st, hbytes st, ?_⟩
  · cases hcu : st.cached_archive_url with
    | some u =>
      rw [datasetUrl_cached resolve d st u hcu]
      exact Nat.zero_le 1
    | none =>
      rw [datasetUrl_fresh resolve d st hcu]
      show ((urlLoop resolve d.links none).2).length ≤ 1
      rw [(urlLoop_spec resolve d.links none).1, List.length_map,
        ← List.countP_eq_length_filter]
      exact hdd
  · intro b rc fc st2 hr
    cases hb : st.cached_archive_bytes with
    | some b0 =>
      rw [hbytes st b0 hb] at hr
      injection hr with h
      have hbb : b0 = b := congrArg (fun x => x.1.1) h
      have hfc : fc = [] := (congrArg (fun x => x.1.2.2) h).symm
      have hst : st = st2 := congrArg (fun x => x.2) h
      constructor
      · rw [← hst, hbytes st b0 hb, hbb]
      · rw [hfc]
        exact Nat.zero_le 1
    | none =>
      cases hu : (datasetUrl resolve d st).1.1 with
      | none =>
        have h1 : getArchiveBytes resolve fetchArch d st
            = .error ("No download URL available for this dataset",
                (datasetUrl resolve d st).2) := by
          unfold getArchiveBytes
          rw [hb]
          simp only [hu]
        rw [h1] at hr
        exact absurd hr (fun hcon => Except.noConfusion hcon)
      | some u =>
        by_cases he : u.isEmpty = true
        · have h1 : getArchiveBytes resolve fetchArch d st
              = .error ("No download URL available for this dataset",
                  (datasetUrl resolve d st).2) := by
            unfold getArchiveBytes
            rw [hb]
            simp only [hu, he, if_true]
          rw [h1] at hr
          exact absurd hr (fun hcon => Except.noConfusion hcon)
        · have h1 : getArchiveBytes resolve fetchArch d st
              = .ok ((fetchArch u, (datasetUrl resolve d st).1.2, [u]),
                  { (datasetUrl resolve d st).2 with
                      cached_archive_bytes := some (fetchArch u) }) := by
            unfold getArchiveBytes
            rw [hb]
            simp only [hu, he, Bool.false_eq_true, if_false]
          rw [h1] at hr
          injection hr with h
          have hbb : fetchArch u = b := congrArg (fun x => x.1.1) h
          have hfc : fc = [u] := (congrArg (fun x => x.1.2.2) h).symm
          have hst : ({ (datasetUrl resolve d st).2 with
              cached_archive_bytes := some (fetchArch u) } : DatasetState) = st2 :=
            congrArg (fun x => x.2) h
          constructor
          · have hb2 : st2.cached_archive_bytes = some (fetchArch u) :=
              (congrArg DatasetState.cached_archive_bytes hst).symm
            rw [hbytes st2 (fetchArch u) hb2, hbb]
          · rw [hfc]
            exact Nat.le_refl 1

/-- C6 (witness): the amended statement at the parsed fixture dataset (one
"Direct download" link) and a fresh state. -/
theorem c6_memo_amended_witness :
    fixDataset.links.countP (fun l => l.label == "Direct download") ≤ 1
    ∧ ((datasetUrl (fun s => s ++ "/z") fixDataset DatasetState.fresh).1.2).length ≤ 1
    ∧ datasetUrl (fun s => s ++ "/z") fixDataset
        ((datasetUrl (fun s => s ++ "/z") fixDataset DatasetState.fresh).2)
        = (((datasetUrl (fun s => s ++ "/z") fixDataset DatasetState.fresh).1.1, []),
           (datasetUrl (fun s => s ++ "/z") fixDataset DatasetState.fresh).2) := by
  have h := c6_memo_amended (fun s => s ++ "/z") (fun _ => [9]) fixDataset
    DatasetState.fresh (by decide)
  exact ⟨by decide, h.1, h.2.1⟩

/-! ## C8 -/

/-- C8 (counterexample): the document contains an anchor with an `href`
(value `""`) wrapping a span whose text is exactly "Download all files", yet
resolution raises the link-not-found `ValueError` — the code's Python
truthiness test rejects an empty `href`, which the claim's "with an href"
wording does not. -/
theorem c8_resolve_counterexample :
    nodeString fixSpanLabel = some "Download all files"
    ∧ attrGet fixAnchorEmptyHref "href" = some ""
    ∧ resolve_download_url_from_html fixPageEmptyHref
        = .error (.valueError "Could not find 'Download all files' link on page") :=
  ⟨rfl, rfl, rfl⟩

/-- The resolver loop returns the first qualifying span's href, else the
link-not-found error. -/
theorem resolveGo_spec (ps : List (Node × List Node)) :
    resolve_download_url_from_html.go ps
      = (match (ps.filterMap spanHref).head? with
         | some href => .ok href
         | none => .error (.valueError "Could not find 'Download all files' link on page")) := by
  induction ps with
  | nil => rfl
  | cons p rest ih =>
    obtain ⟨span, anc⟩ := p
    have hsp : spanHref (span, anc)
        = (if nodeString span == some "Download all files" then
            match anc.find? (fun n => tagOf n == some "a") with
            | some link =>
              match attrGet link "href" with
              | some href => if !href.isEmpty then some href else none
              | none => none
            | none => none
          else none) := rfl
    unfold resolve_download_url_from_html.go
    rw [List.filterMap_cons, hsp]
    by_cases hs : (nodeString span == some "Download all files") = true
    · simp only [hs, if_true]
      cases hanc : anc.find? (fun n => tagOf n == some "a") with
      | none =>
        simp only [hanc]
        exact ih
      | some link =>
        simp only [hanc]
        cases hhref : attrGet link "href" with
        | none =>
          simp only [hhref]
          exact ih
        | some href =>
          simp only [hhref]
          by_cases hemp : href.isEmpty = true
          · simp only [hemp, Bool.not_true, Bool.false_eq_true, if_false]
            exact ih
          · rw [Bool.not_eq_true] at hemp
            simp only [hemp, Bool.not_false, if_true]
            rfl
    · rw [Bool.not_eq_true] at hs
      simp only [hs, Bool.false_eq_true, if_false]
      exact ih

/-- C8 (amended): resolution returns the href of the first document-order
span whose `.string` is exactly "Download all files" and whose nearest `a`
ancestor carries a nonempty `href`; when no such span exists — in particular
when a labeled anchor exists but its `href` is empty — it raises a
`ValueError` whose message includes the expected label text. -/
theorem c8_resolve_amended (doc : Node) :
    resolve_download_url_from_html doc
      = (match ((spansWithAnc [] doc).filterMap spanHref).head? with
         | some href => .ok href
         | none => .error (.valueError "Could not find 'Download all files' link on page"))
    ∧ hasSubstr "Could not find 'Download all files' link on page" "Download all files"
        = true :=
  ⟨resolveGo_spec (spansWithAnc [] doc), by decide⟩

end Euets
